import Mathlib

/-!
Verification of the codis-fe routing core (cmd/fe/main.go).

The embedding models the two stateful objects of the core —
`ConfigLoader` (Reload/Load, main.go:171-205) and `ReverseProxy`
(Update/GetProxy/Names, main.go:207-246) — as pure Lean functions with
explicit state passing.

Modelling decisions, each tied to the source:
* Go `map[string]K` is modelled as an association list with unique keys;
  assignment `m[k] = v` removes any existing binding of `k` and appends
  `(k, v)`, which gives the same lookup semantics and the same key set.
  Go map iteration order is unspecified; the model iterates in list
  order.  Every fold the code performs over a map acts independently on
  distinct keys, so the modelled results are order-insensitive where the
  code's are.
* `httputil.ReverseProxy` built by `NewSingleHostReverseProxy` over
  `&url.URL{Scheme: "http", Host: host}` is modelled as the record of
  that scheme and host (the only data distinguishing two targets).
* The filesystem is an explicit input: `os.Stat` yields an optional
  modification time (`none` = stat error) and the combination of
  `ioutil.ReadFile` + `json.Unmarshal` yields either a read failure, a
  parse failure, or the decoded list of `{name, dashboard}` records.
  Modification times are `Nat`; Go's `time.Time` zero value is `0`.
-/

/-- Errors that the loader can produce, tagged by originating call:
`os.Stat` failure, `ioutil.ReadFile` failure, `json.Unmarshal` failure. -/
inductive GoError where
  | statErr : GoError
  | readErr : GoError
  | jsonErr : GoError
deriving DecidableEq, Repr

/-- Modelled from the spec: `errors.Trace` (pkg/utils/errors, outside
src/) wraps a non-nil error with stack information and returns nil for a
nil argument ("return \"nothing changed\" (not an error)"); since the
stack metadata never affects control flow or any claim, tracing is the
identity on the optional error. -/
def errorsTrace (e : Option GoError) : Option GoError := e

/-- Result of `ioutil.ReadFile` followed by `json.Unmarshal` on the
config file: the read can fail, the bytes can fail to decode, or they
decode to an ordered list of `{name, dashboard}` records (each record a
`(Name, Dashboard)` pair; absent JSON fields decode to `""`). -/
inductive FileContent where
  | unreadable : FileContent
  | malformed : FileContent
  | records : List (String × String) → FileContent
deriving DecidableEq, Repr

/-- One observation of the config file: `modTime` is what `os.Stat`
reports (`none` when stat fails), `content` what reading + decoding it
would yield. -/
structure SourceFile where
  modTime : Option Nat
  content : FileContent
deriving DecidableEq, Repr

/-- Go map assignment `m[k] = v` on the association-list model: drop any
existing binding of `k`, append `(k, v)`. -/
def mapInsert {K : Type} (m : List (String × K)) (k : String) (v : K) :
    List (String × K) :=
  m.filter (fun p => !(p.1 == k)) ++ [(k, v)]

/-- Go map read `m[k]` (comma-ok form): the value bound to `k`, if any. -/
def mapLookup {K : Type} (m : List (String × K)) (k : String) : Option K :=
  (m.find? (fun p => p.1 == k)).map Prod.snd

/-- The keys of a modelled Go map. -/
def mapKeys {K : Type} (m : List (String × K)) : List String :=
  m.map Prod.fst

/-- A forwarding target: `httputil.ReverseProxy` as produced by
`NewSingleHostReverseProxy`, identified by the URL it was built from. -/
structure Proxy where
  scheme : String
  host : String
deriving DecidableEq, Repr

/-- `httputil.NewSingleHostReverseProxy(&url.URL{Scheme: "http", Host:
host})` with the shared `roundTripper` installed (main.go:220-222). -/
def newSingleHostReverseProxy (host : String) : Proxy :=
  { scheme := "http", host := host }

/-- `type ConfigLoader struct { last time.Time }` (main.go:171-173);
the zero value of `time.Time` is modelled as `0`. -/
structure ConfigLoader where
  last : Nat
deriving DecidableEq, Repr

/-- `ConfigLoader.Load` (main.go:188-205): read the file, decode the
JSON list, then fold `m[e.Name] = e.Dashboard` over the records in list
order starting from an empty map.  No record is filtered here. -/
def ConfigLoader.Load (f : SourceFile) :
    Except GoError (List (String × String)) :=
  match f.content with
  | .unreadable => .error .readErr
  | .malformed => .error .jsonErr
  | .records list =>
      .ok (list.foldl (fun m e => mapInsert m e.1 e.2) [])

/-- `ConfigLoader.Reload` (main.go:175-186).  Mirrors
`if fi, err := os.Stat(path); err != nil || fi.ModTime().Equal(l.last)`:
a stat failure returns the traced stat error, an unchanged modification
time returns `errorsTrace none`; otherwise `Load` runs, its error is
propagated with `last` unchanged, and on success `last` is set to the
observed modification time.  Returns (mapping?, error?) plus the
post-call loader state. -/
def ConfigLoader.Reload (l : ConfigLoader) (f : SourceFile) :
    (Option (List (String × String)) × Option GoError) × ConfigLoader :=
  match f.modTime with
  | none => ((none, errorsTrace (some .statErr)), l)
  | some t =>
      if t = l.last then
        ((none, errorsTrace none), l)
      else
        match ConfigLoader.Load f with
        | .error e => ((none, some e), l)
        | .ok m => ((some m, none), { last := t })

/-- `type ReverseProxy struct { sync.Mutex; routes map[string]*httputil.ReverseProxy }`
(main.go:207-210): `routes = none` models the nil map of the zero value
(no snapshot ever installed). -/
structure ReverseProxy where
  routes : Option (List (String × Proxy))
deriving DecidableEq, Repr

/-- The body of Update's loop (main.go:216-223): skip an entry whose
name or host is empty, otherwise build its proxy and assign it. -/
def updateStep (acc : List (String × Proxy)) (e : String × String) :
    List (String × Proxy) :=
  if e.1 = "" ∨ e.2 = "" then acc
  else mapInsert acc e.1 (newSingleHostReverseProxy e.2)

/-- `ReverseProxy.Update` (main.go:212-225): under the mutex, replace
`routes` by a freshly built map, folding `updateStep` over the input. -/
def ReverseProxy.Update (_r : ReverseProxy)
    (routes : List (String × String)) : ReverseProxy :=
  { routes := some (routes.foldl updateStep []) }

/-- `ReverseProxy.GetProxy` (main.go:227-234): nil when no snapshot was
ever installed, otherwise the map read `r.routes[name]`. -/
def ReverseProxy.GetProxy (r : ReverseProxy) (name : String) :
    Option Proxy :=
  match r.routes with
  | none => none
  | some m => mapLookup m name

/-- `ReverseProxy.Names` (main.go:236-246): the keys of the current
snapshot, the empty list when `routes` is nil. -/
def ReverseProxy.Names (r : ReverseProxy) : List String :=
  match r.routes with
  | none => []
  | some m => mapKeys m

/-- States of the route table reachable from the zero value by any
sequence of `Update` calls — `Update` being the only writer
(main.go:106-120 is the sole caller). -/
inductive Reachable : ReverseProxy → Prop where
  | init : Reachable { routes := none }
  | step (r : ReverseProxy) (m : List (String × String)) :
      Reachable r → Reachable (r.Update m)

/-! ### Association-list map lemmas -/

theorem mapKeys_nil {K : Type} : mapKeys ([] : List (String × K)) = [] := rfl

theorem mapKeys_cons {K : Type} (p : String × K) (t : List (String × K)) :
    mapKeys (p :: t) = p.1 :: mapKeys t := rfl

theorem mapKeys_append {K : Type} (a b : List (String × K)) :
    mapKeys (a ++ b) = mapKeys a ++ mapKeys b := List.map_append _ _ _

theorem find?_key_filter_other {K : Type} (m : List (String × K)) (k k' : String)
    (h : k' ≠ k) :
    (m.filter (fun p => !(p.1 == k))).find? (fun p => p.1 == k') =
      m.find? (fun p => p.1 == k') := by
  induction m with
  | nil => rfl
  | cons p t ih =>
    by_cases hp : p.1 = k
    · simp [List.filter_cons, hp, List.find?_cons, Ne.symm h, ih]
    · by_cases hp' : p.1 = k'
      · simp [List.filter_cons, hp, List.find?_cons, hp', h]
      · simp [List.filter_cons, hp, List.find?_cons, hp', ih]

theorem find?_key_filter_self {K : Type} (m : List (String × K)) (k : String) :
    (m.filter (fun p => !(p.1 == k))).find? (fun p => p.1 == k) = none := by
  induction m with
  | nil => rfl
  | cons p t ih =>
    by_cases hp : p.1 = k
    · simp [List.filter_cons, hp, ih]
    · simp [List.filter_cons, hp, List.find?_cons, ih]

theorem mapLookup_mapInsert {K : Type} (m : List (String × K)) (k k' : String) (v : K) :
    mapLookup (mapInsert m k v) k' = if k' = k then some v else mapLookup m k' := by
  by_cases h : k' = k
  · subst h
    simp [mapLookup, mapInsert, List.find?_append, find?_key_filter_self]
  · simp [mapLookup, mapInsert, List.find?_append, find?_key_filter_other m k k' h, h]
    cases m.find? (fun p => p.1 == k') with
    | none => simp [List.find?_cons, Ne.symm h]
    | some p => simp

theorem mapLookup_eq_none_of_not_mem {K : Type} (m : List (String × K)) (k : String)
    (h : k ∉ mapKeys m) : mapLookup m k = none := by
  induction m with
  | nil => rfl
  | cons p t ih =>
    rw [mapKeys_cons] at h
    have h1 : ¬(p.1 = k) := by
      intro he
      exact h (by rw [he]; exact List.mem_cons_self k (mapKeys t))
    have h2 : k ∉ mapKeys t := fun hm => h (List.mem_cons_of_mem _ hm)
    simp only [mapLookup]
    rw [List.find?_cons_of_neg _ (by simp [h1])]
    simpa [mapLookup] using ih h2

theorem mapLookup_of_mem_nodup {K : Type} (m : List (String × K)) (k : String) (v : K)
    (hd : (mapKeys m).Nodup) (hmem : (k, v) ∈ m) : mapLookup m k = some v := by
  induction m with
  | nil => cases hmem
  | cons p t ih =>
    rw [mapKeys_cons] at hd
    have hd' := List.nodup_cons.mp hd
    rcases List.mem_cons.mp hmem with h | h
    · subst h
      simp [mapLookup, List.find?_cons]
    · have hk : k ∈ mapKeys t := List.mem_map_of_mem Prod.fst h
      have hne : ¬(p.1 = k) := fun he => hd'.1 (by rw [he]; exact hk)
      simp only [mapLookup]
      rw [List.find?_cons_of_neg _ (by simp [hne])]
      simpa [mapLookup] using ih hd'.2 h

theorem mapInsert_of_not_mem {K : Type} (m : List (String × K)) (k : String) (v : K)
    (h : k ∉ mapKeys m) : mapInsert m k v = m ++ [(k, v)] := by
  unfold mapInsert
  congr 1
  induction m with
  | nil => rfl
  | cons p t ih =>
    rw [mapKeys_cons] at h
    have h1 : ¬(p.1 = k) := by
      intro he
      exact h (by rw [he]; exact List.mem_cons_self k (mapKeys t))
    have h2 : k ∉ mapKeys t := fun hm => h (List.mem_cons_of_mem _ hm)
    simp [List.filter_cons, h1, ih h2]

/-! ### Normal forms for the Update fold and the Load fold -/

/-- The per-entry result of Update's loop body: dropped when invalid,
otherwise the `(name, proxy)` pair it assigns. -/
def updEntry (e : String × String) : Option (String × Proxy) :=
  if e.1 = "" ∨ e.2 = "" then none
  else some (e.1, newSingleHostReverseProxy e.2)

theorem foldl_updateStep_eq (m : List (String × String))
    (acc : List (String × Proxy))
    (hd : (mapKeys m).Nodup)
    (hdisj : ∀ e ∈ m, e.1 ∉ mapKeys acc) :
    m.foldl updateStep acc = acc ++ m.filterMap updEntry := by
  induction m generalizing acc with
  | nil => simp
  | cons e t ih =>
    rw [mapKeys_cons] at hd
    have hd' := List.nodup_cons.mp hd
    by_cases hv : e.1 = "" ∨ e.2 = ""
    · have hstep : updateStep acc e = acc := by simp [updateStep, hv]
      have htail : ∀ e' ∈ t, e'.1 ∉ mapKeys acc :=
        fun e' he' => hdisj e' (List.mem_cons_of_mem _ he')
      simp [List.foldl_cons, hstep, List.filterMap_cons, updEntry, hv,
        ih acc hd'.2 htail]
    · have hstep : updateStep acc e =
          acc ++ [(e.1, newSingleHostReverseProxy e.2)] := by
        rw [updateStep, if_neg hv]
        exact mapInsert_of_not_mem acc e.1 _ (hdisj e (List.mem_cons_self e t))
      have htail : ∀ e' ∈ t,
          e'.1 ∉ mapKeys (acc ++ [(e.1, newSingleHostReverseProxy e.2)]) := by
        intro e' he' hmem
        rw [mapKeys_append] at hmem
        rcases List.mem_append.mp hmem with hmem | hmem
        · exact hdisj e' (List.mem_cons_of_mem _ he') hmem
        · have h1 : e'.1 = e.1 := by simpa [mapKeys] using hmem
          exact hd'.1 (h1 ▸ List.mem_map_of_mem Prod.fst he')
      rw [List.foldl_cons, hstep, ih _ hd'.2 htail, List.filterMap_cons]
      simp [updEntry, hv]

theorem mem_mapKeys_filterMap_updEntry (t : List (String × String)) (x : String)
    (h : x ∈ mapKeys (t.filterMap updEntry)) : x ∈ mapKeys t := by
  induction t with
  | nil => simp [mapKeys] at h
  | cons e t ih =>
    rw [List.filterMap_cons] at h
    rw [mapKeys_cons]
    by_cases hv : e.1 = "" ∨ e.2 = ""
    · simp only [updEntry, if_pos hv] at h
      exact List.mem_cons_of_mem _ (ih h)
    · simp only [updEntry, if_neg hv] at h
      rw [mapKeys_cons] at h
      rcases List.mem_cons.mp h with h | h
      · rw [h]
        exact List.mem_cons_self _ _
      · exact List.mem_cons_of_mem _ (ih h)

theorem mapLookup_filterMap_updEntry (m : List (String × String)) (k : String)
    (hd : (mapKeys m).Nodup) :
    mapLookup (m.filterMap updEntry) k =
      (mapLookup m k).bind (fun host =>
        if k = "" ∨ host = "" then none
        else some (newSingleHostReverseProxy host)) := by
  induction m with
  | nil => rfl
  | cons e t ih =>
    rw [mapKeys_cons] at hd
    have hd' := List.nodup_cons.mp hd
    rw [List.filterMap_cons]
    by_cases hk : k = e.1
    · have hhead : mapLookup (e :: t) k = some e.2 := by
        simp only [mapLookup]
        rw [List.find?_cons_of_pos _ (by simp [hk])]
        rfl
      rw [hhead]
      by_cases hv : e.1 = "" ∨ e.2 = ""
      · simp only [updEntry, if_pos hv]
        have hnone : mapLookup (t.filterMap updEntry) k = none := by
          apply mapLookup_eq_none_of_not_mem
          intro hmem
          exact hd'.1 (hk ▸ mem_mapKeys_filterMap_updEntry t k hmem)
        rw [hnone]
        have hcond : k = "" ∨ e.2 = "" := by
          rcases hv with hv | hv
          · exact Or.inl (hk.trans hv)
          · exact Or.inr hv
        simp [hcond]
      · simp only [updEntry, if_neg hv]
        have hcond : ¬(k = "" ∨ e.2 = "") := by
          intro hc
          rcases hc with hc | hc
          · exact hv (Or.inl (hk ▸ hc))
          · exact hv (Or.inr hc)
        simp only [mapLookup]
        rw [List.find?_cons_of_pos _ (by simp [hk])]
        simp [hcond]
    · have hhead : mapLookup (e :: t) k = mapLookup t k := by
        simp only [mapLookup]
        rw [List.find?_cons_of_neg _ (by simp; intro hc; exact hk hc.symm)]
      rw [hhead]
      by_cases hv : e.1 = "" ∨ e.2 = ""
      · simp only [updEntry, if_pos hv]
        exact ih hd'.2
      · simp only [updEntry, if_neg hv]
        have hstep : mapLookup ((e.1, newSingleHostReverseProxy e.2) ::
            t.filterMap updEntry) k = mapLookup (t.filterMap updEntry) k := by
          simp only [mapLookup]
          rw [List.find?_cons_of_neg _ (by simp; intro hc; exact hk hc.symm)]
        rw [hstep]
        exact ih hd'.2

theorem length_filterMap_updEntry (m : List (String × String)) :
    (m.filterMap updEntry).length =
      (m.filter (fun e => !(e.1 == "" || e.2 == ""))).length := by
  induction m with
  | nil => rfl
  | cons e t ih =>
    rw [List.filterMap_cons, List.filter_cons]
    by_cases hv : e.1 = "" ∨ e.2 = ""
    · have hb : (!(e.1 == "" || e.2 == "")) = false := by simp [hv]; tauto
      simp only [updEntry, if_pos hv, hb]
      simpa using ih
    · have hb : (!(e.1 == "" || e.2 == "")) = true := by
        simp only [Bool.not_eq_true', Bool.or_eq_false_iff]
        constructor
        · simp only [beq_eq_false_iff_ne]
          exact fun hc => hv (Or.inl hc)
        · simp only [beq_eq_false_iff_ne]
          exact fun hc => hv (Or.inr hc)
      simp only [updEntry, if_neg hv, hb]
      simpa using ih

theorem empty_not_mem_keys_foldl (m : List (String × String))
    (acc : List (String × Proxy)) (h : "" ∉ mapKeys acc) :
    "" ∉ mapKeys (m.foldl updateStep acc) := by
  induction m generalizing acc with
  | nil => simpa using h
  | cons e t ih =>
    rw [List.foldl_cons]
    by_cases hv : e.1 = "" ∨ e.2 = ""
    · simp only [updateStep, if_pos hv]
      exact ih acc h
    · simp only [updateStep, if_neg hv]
      apply ih
      intro hmem
      rw [mapInsert, mapKeys_append] at hmem
      rcases List.mem_append.mp hmem with hmem | hmem
      · rcases List.mem_map.mp hmem with ⟨p, hp, hfst⟩
        exact h (hfst ▸ List.mem_map_of_mem Prod.fst (List.mem_of_mem_filter hp))
      · have he : "" = e.1 := by simpa [mapKeys] using hmem
        exact hv (Or.inl he.symm)

theorem foldl_updateStep_all_invalid (m : List (String × String))
    (acc : List (String × Proxy)) (h : ∀ e ∈ m, e.1 = "" ∨ e.2 = "") :
    m.foldl updateStep acc = acc := by
  induction m generalizing acc with
  | nil => rfl
  | cons e t ih =>
    rw [List.foldl_cons]
    have hv := h e (List.mem_cons_self e t)
    simp only [updateStep, if_pos hv]
    exact ih acc (fun e' he' => h e' (List.mem_cons_of_mem _ he'))

theorem mapLookup_load_fold (list : List (String × String)) (k : String) :
    mapLookup (list.foldl (fun m e => mapInsert m e.1 e.2) []) k =
      (list.reverse.find? (fun e => e.1 == k)).map Prod.snd := by
  induction list using List.reverseRecOn with
  | nil => rfl
  | append_singleton l e ih =>
    rw [List.foldl_append, List.foldl_cons, List.foldl_nil]
    rw [mapLookup_mapInsert, List.reverse_append]
    by_cases hk : k = e.1
    · rw [if_pos hk]
      simp only [List.reverse_cons, List.reverse_nil, List.nil_append,
        List.singleton_append]
      rw [List.find?_cons_of_pos _ (by simp [hk])]
      simp
    · rw [if_neg hk, ih]
      simp only [List.reverse_cons, List.reverse_nil, List.nil_append,
        List.singleton_append]
      rw [List.find?_cons_of_neg _ (by simp; intro hc; exact hk hc.symm)]

/-! ### Lock-trace model of `ReverseProxy.Update`

`Update` (main.go:212-225) is, statement by statement:
`r.Lock()`; `defer r.Unlock()`; `r.routes = make(...)`; one loop
iteration per input entry.  The deferred unlock runs when the function
returns, so everything after `r.Lock()` executes while the mutex is
held.  The trace below records exactly these steps in program order. -/

/-- One observable step of an `Update` call: taking the mutex,
allocating (and installing the reference to) the fresh map, processing
one input entry, releasing the mutex. -/
inductive UpdateEvent where
  | lockAcq : UpdateEvent
  | allocTable : UpdateEvent
  | visitEntry : String → String → UpdateEvent
  | lockRel : UpdateEvent
deriving DecidableEq, Repr

/-- The sequence of steps one call `Update(routes)` performs, in program
order (main.go:213 lock, 214 deferred unlock, 215 allocation, 216-223
one iteration per entry of the input map). -/
def updateTrace (routes : List (String × String)) : List UpdateEvent :=
  [UpdateEvent.lockAcq, UpdateEvent.allocTable] ++
    routes.map (fun e => UpdateEvent.visitEntry e.1 e.2) ++
    [UpdateEvent.lockRel]

/-- The steps performed while the mutex is held: those strictly between
the acquisition and the release in a trace. -/
def heldSection (tr : List UpdateEvent) : List UpdateEvent :=
  ((tr.dropWhile (fun ev => !(ev == UpdateEvent.lockAcq))).drop 1).takeWhile
    (fun ev => !(ev == UpdateEvent.lockRel))

theorem takeWhile_visit_append (routes : List (String × String)) :
    List.takeWhile (fun ev => !(ev == UpdateEvent.lockRel))
        (routes.map (fun e => UpdateEvent.visitEntry e.1 e.2) ++
          [UpdateEvent.lockRel]) =
      routes.map (fun e => UpdateEvent.visitEntry e.1 e.2) := by
  induction routes with
  | nil => rfl
  | cons e t ih =>
    simp only [List.map_cons, List.cons_append, List.takeWhile_cons]
    simp [ih]

/-! ### Claims -/

/-- C1: for every mapping `m` (a Go map, hence with pairwise-distinct
names), after `Update(m)` the route table's entries are exactly the
pairs of `m` whose name and address are both non-empty, each bound to
the forwarding target for its address; the result does not depend on
the previous snapshot, and the entry count equals the count of valid
entries of `m`. -/
theorem C1_update_replaces_with_exactly_valid_entries
    (r r' : ReverseProxy) (m : List (String × String))
    (hd : (mapKeys m).Nodup) :
    r.Update m = r'.Update m ∧
    (∀ name, (r.Update m).GetProxy name =
      (mapLookup m name).bind (fun host =>
        if name = "" ∨ host = "" then none
        else some (newSingleHostReverseProxy host))) ∧
    (r.Update m).Names.length =
      (m.filter (fun e => !(e.1 == "" || e.2 == ""))).length := by
  have hdisj : ∀ e ∈ m, e.1 ∉ mapKeys ([] : List (String × Proxy)) := by
    intro e _ hmem
    simp [mapKeys] at hmem
  refine ⟨rfl, ?_, ?_⟩
  · intro name
    show mapLookup (m.foldl updateStep []) name = _
    rw [foldl_updateStep_eq m [] hd hdisj, List.nil_append]
    exact mapLookup_filterMap_updEntry m name hd
  · show (mapKeys (m.foldl updateStep [])).length = _
    rw [foldl_updateStep_eq m [] hd hdisj, List.nil_append]
    simp only [mapKeys, List.length_map]
    exact length_filterMap_updEntry m

/-- Witness for C1 at a concrete previous snapshot and mapping. -/
theorem C1_update_replaces_with_exactly_valid_entries_witness :
    (mapKeys [("b", "h2:2"), ("a", ""), ("", "h1:1")]).Nodup ∧
    (ReverseProxy.Update
        { routes := some [("x", { scheme := "http", host := "old" })] }
        [("b", "h2:2"), ("a", ""), ("", "h1:1")]).GetProxy "b" =
      (mapLookup [("b", "h2:2"), ("a", ""), ("", "h1:1")] "b").bind
        (fun host =>
          if "b" = "" ∨ host = "" then none
          else some (newSingleHostReverseProxy host)) :=
  ⟨by decide,
   (C1_update_replaces_with_exactly_valid_entries
      { routes := some [("x", { scheme := "http", host := "old" })] }
      { routes := none } [("b", "h2:2"), ("a", ""), ("", "h1:1")]
      (by decide)).2.1 "b"⟩

/-- C2 counterexample: the work done while the mutex is held is not a
constant-size reference swap — it grows with the input (3 steps for a
two-entry mapping against 1 step for an empty one), and both the table
allocation and the per-entry construction happen inside the held
section, not before it. -/
theorem C2_counterexample :
    (heldSection (updateTrace [("a", "h1:1"), ("b", "h2:2")])).length ≠
      (heldSection (updateTrace [])).length ∧
    UpdateEvent.allocTable ∈ heldSection (updateTrace [("a", "h1:1")]) ∧
    UpdateEvent.visitEntry "a" "h1:1" ∈
      heldSection (updateTrace [("a", "h1:1")]) := by
  decide

/-- C2 (amended): `Update` constructs the new snapshot entirely inside
the lock's critical section — the held section of its trace is exactly
the table allocation followed by one step per input entry, so its
length is `1 + |m|`, linear in the mapping size rather than O(1);
atomic replacement still holds because lookups take the same mutex. -/
theorem C2_amended_construction_inside_lock
    (routes : List (String × String)) :
    heldSection (updateTrace routes) =
      UpdateEvent.allocTable ::
        routes.map (fun e => UpdateEvent.visitEntry e.1 e.2) ∧
    (heldSection (updateTrace routes)).length = 1 + routes.length := by
  have h : heldSection (updateTrace routes) =
      UpdateEvent.allocTable ::
        routes.map (fun e => UpdateEvent.visitEntry e.1 e.2) := by
    simp only [heldSection, updateTrace, List.cons_append,
      List.dropWhile_cons]
    simp only [beq_self_eq_true, Bool.not_true, Bool.false_eq_true,
      if_false, List.drop_succ_cons, List.drop_zero, List.takeWhile_cons]
    simp [takeWhile_visit_append routes]
  refine ⟨h, ?_⟩
  rw [h]
  simp [Nat.add_comm]

/-- C3: the remembered timestamp advances only on a fully successful
load — a stat failure, a read/parse failure, or the unchanged case
leaves the loader state exactly what it was, and the state becomes the
newly observed modification time exactly when a mapping is returned. -/
theorem C3_timestamp_advances_only_on_success
    (l : ConfigLoader) (f : SourceFile) :
    (f.modTime = none → (l.Reload f).2 = l) ∧
    (∀ e, (l.Reload f).1.2 = some e → (l.Reload f).2 = l) ∧
    ((l.Reload f).1.1 = none → (l.Reload f).2 = l) ∧
    (∀ m, (l.Reload f).1.1 = some m →
      ∃ t, f.modTime = some t ∧ (l.Reload f).2 = { last := t } ∧
        (l.Reload f).1.2 = none) := by
  unfold ConfigLoader.Reload
  cases hf : f.modTime with
  | none => simp [errorsTrace]
  | some t =>
    by_cases ht : t = l.last
    · simp [ht, errorsTrace]
    · simp only [ht, if_neg, ite_false]
      cases hL : ConfigLoader.Load f with
      | error e => simp
      | ok m => simp

/-- Witness for C3 at a concrete loader and a malformed source. -/
theorem C3_timestamp_advances_only_on_success_witness :
    (ConfigLoader.Reload { last := 5 }
        { modTime := some 7, content := FileContent.malformed }).1.2 =
      some GoError.jsonErr ∧
    (ConfigLoader.Reload { last := 5 }
        { modTime := some 7, content := FileContent.malformed }).2 =
      { last := 5 } :=
  ⟨by decide,
   (C3_timestamp_advances_only_on_success { last := 5 }
      { modTime := some 7, content := FileContent.malformed }).2.1
     GoError.jsonErr (by decide)⟩

/-- C4: a Reload observing a modification time equal to the remembered
one returns the "nothing changed" pair — nil mapping and nil error; in
particular after a successful Reload, a second Reload of the unmodified
source returns "nothing changed", with the same result whatever the
content holds (no re-parse). -/
theorem C4_unchanged_reload_is_nil_nil
    (l l' : ConfigLoader) (f : SourceFile) (t : Nat)
    (m : List (String × String))
    (hm : f.modTime = some t)
    (h1 : l.Reload f = ((some m, none), l')) :
    l'.Reload f = ((none, none), l') ∧
    (∀ c, ConfigLoader.Reload l' { modTime := some t, content := c } =
      ((none, none), l')) ∧
    (∀ (l₀ : ConfigLoader) (f₀ : SourceFile) (t₀ : Nat),
      f₀.modTime = some t₀ → t₀ = l₀.last →
      l₀.Reload f₀ = ((none, none), l₀)) := by
  have hl' : l' = { last := t } := by
    unfold ConfigLoader.Reload at h1
    rw [hm] at h1
    simp only [] at h1
    by_cases ht : t = l.last
    · rw [if_pos ht] at h1
      simp [errorsTrace] at h1
    · rw [if_neg ht] at h1
      cases hL : ConfigLoader.Load f with
      | error e =>
        rw [hL] at h1
        simp at h1
      | ok m' =>
        rw [hL] at h1
        have h2 : ({ last := t } : ConfigLoader) = l' := congrArg Prod.snd h1
        exact h2.symm
  subst hl'
  refine ⟨?_, ?_, ?_⟩
  · simp [ConfigLoader.Reload, hm, errorsTrace]
  · intro c
    simp [ConfigLoader.Reload, errorsTrace]
  · intro l₀ f₀ t₀ hm₀ ht₀
    simp [ConfigLoader.Reload, hm₀, ht₀, errorsTrace]

/-- Witness for C4: a successful first Reload, then the unchanged
second Reload returning nil mapping and nil error. -/
theorem C4_unchanged_reload_is_nil_nil_witness :
    ({ modTime := some 1,
       content := FileContent.records [("b", "h2:2")] } : SourceFile).modTime
      = some 1 ∧
    ConfigLoader.Reload { last := 0 }
        { modTime := some 1, content := FileContent.records [("b", "h2:2")] } =
      ((some [("b", "h2:2")], none), { last := 1 }) ∧
    ConfigLoader.Reload { last := 1 }
        { modTime := some 1, content := FileContent.records [("b", "h2:2")] } =
      ((none, none), { last := 1 }) :=
  ⟨rfl, by decide,
   (C4_unchanged_reload_is_nil_nil { last := 0 } { last := 1 }
      { modTime := some 1, content := FileContent.records [("b", "h2:2")] }
      1 [("b", "h2:2")] rfl (by decide)).1⟩

theorem mem_foldl_updateStep (m : List (String × String))
    (acc : List (String × Proxy)) (q : String × Proxy)
    (hq : q ∈ m.foldl updateStep acc)
    (hacc : ∀ q' ∈ acc, q'.1 ≠ "" ∧ q'.2.host ≠ "") :
    q.1 ≠ "" ∧ q.2.host ≠ "" := by
  induction m generalizing acc with
  | nil => exact hacc q hq
  | cons e t ih =>
    rw [List.foldl_cons] at hq
    by_cases hv : e.1 = "" ∨ e.2 = ""
    · exact ih _ (by simpa [updateStep, hv] using hq) hacc
    · have hacc' : ∀ q' ∈ mapInsert acc e.1 (newSingleHostReverseProxy e.2),
          q'.1 ≠ "" ∧ q'.2.host ≠ "" := by
        intro q' hq'
        rw [mapInsert] at hq'
        rcases List.mem_append.mp hq' with hq' | hq'
        · exact hacc q' (List.mem_of_mem_filter hq')
        · have hq'' : q' = (e.1, newSingleHostReverseProxy e.2) := by
            simpa using hq'
          subst hq''
          push_neg at hv
          exact ⟨hv.1, hv.2⟩
      exact ih _ (by simpa [updateStep, hv] using hq) hacc'

/-- C5 counterexample: on the spec's own example records, the mapping
returned by a successful Reload still binds the empty name and still
binds "a" to the empty address — `Load` does not filter them out. -/
theorem C5_counterexample :
    mapLookup
        ((ConfigLoader.Reload { last := 0 }
            { modTime := some 1,
              content := FileContent.records
                [("", "h1:1"), ("a", ""), ("b", "h2:2")] }).1.1.getD [])
        "" = some "h1:1" ∧
    mapLookup
        ((ConfigLoader.Reload { last := 0 }
            { modTime := some 1,
              content := FileContent.records
                [("", "h1:1"), ("a", ""), ("b", "h2:2")] }).1.1.getD [])
        "a" = some "" := by
  decide

/-- C5 (amended): `Load`/`Reload` return the decoded mapping unfiltered
— records with empty name or empty address included, as the
counterexample shows — and the exclusion happens one step later, in
`Update`: no entry of the installed route table has an empty name or an
empty-address target. -/
theorem C5_amended_filtering_happens_in_update
    (r : ReverseProxy) (m : List (String × String)) (name : String)
    (p : Proxy) (h : (r.Update m).GetProxy name = some p) :
    name ≠ "" ∧ p.host ≠ "" := by
  have h' : mapLookup (m.foldl updateStep []) name = some p := h
  rw [mapLookup] at h'
  cases hfind : (m.foldl updateStep []).find? (fun q => q.1 == name) with
  | none =>
    rw [hfind] at h'
    cases h'
  | some q =>
    rw [hfind] at h'
    have hq2 : q.2 = p := by simpa using h'
    have hqmem := List.mem_of_find?_eq_some hfind
    have hqpred := List.find?_some hfind
    have hq1 : q.1 = name := by simpa using hqpred
    have hprop := mem_foldl_updateStep m [] q hqmem
      (by intro q' hq'; simp at hq')
    rw [← hq1, ← hq2]
    exact hprop

/-- Witness for the amended C5 at a concrete valid entry. -/
theorem C5_amended_filtering_happens_in_update_witness :
    (ReverseProxy.Update { routes := none } [("b", "h2:2")]).GetProxy "b" =
      some { scheme := "http", host := "h2:2" } ∧
    ("b" : String) ≠ "" ∧
    ({ scheme := "http", host := "h2:2" } : Proxy).host ≠ "" :=
  ⟨by decide,
   C5_amended_filtering_happens_in_update { routes := none } [("b", "h2:2")]
     "b" { scheme := "http", host := "h2:2" } (by decide)⟩

/-- C6: when the source list holds several records with the same name,
the mapping built by `Load` binds each name to the address of its last
record in list order; on the spec's example the installed table routes
"a" to the target for "h2:2". -/
theorem C6_duplicate_name_last_wins
    (f : SourceFile) (list m : List (String × String)) (r : ReverseProxy)
    (hc : f.content = FileContent.records list)
    (hL : ConfigLoader.Load f = Except.ok m) :
    (∀ k, mapLookup m k =
      (list.reverse.find? (fun e => e.1 == k)).map Prod.snd) ∧
    (∀ m₂, ConfigLoader.Load
        { modTime := none,
          content := FileContent.records [("a", "h1:1"), ("a", "h2:2")] } =
        Except.ok m₂ →
      (r.Update m₂).GetProxy "a" =
        some (newSingleHostReverseProxy "h2:2")) := by
  constructor
  · intro k
    have hm : m = list.foldl (fun mm e => mapInsert mm e.1 e.2) [] := by
      simp only [ConfigLoader.Load, hc] at hL
      exact (Except.ok.inj hL).symm
    rw [hm]
    exact mapLookup_load_fold list k
  · intro m₂ hL₂
    have hv : ConfigLoader.Load
        { modTime := none,
          content := FileContent.records [("a", "h1:1"), ("a", "h2:2")] } =
        Except.ok [("a", "h2:2")] := rfl
    rw [hv] at hL₂
    have hm₂ : m₂ = [("a", "h2:2")] := (Except.ok.inj hL₂).symm
    subst hm₂
    rfl

/-- Witness for C6 on the spec's duplicate-name example. -/
theorem C6_duplicate_name_last_wins_witness :
    ConfigLoader.Load
        { modTime := none,
          content := FileContent.records [("a", "h1:1"), ("a", "h2:2")] } =
      Except.ok [("a", "h2:2")] ∧
    mapLookup [("a", "h2:2")] "a" =
      (([("a", "h1:1"), ("a", "h2:2")] :
          List (String × String)).reverse.find?
        (fun e => e.1 == "a")).map Prod.snd :=
  ⟨rfl,
   (C6_duplicate_name_last_wins
      { modTime := none,
        content := FileContent.records [("a", "h1:1"), ("a", "h2:2")] }
      [("a", "h1:1"), ("a", "h2:2")] [("a", "h2:2")] { routes := none }
      rfl rfl).1 "a"⟩

/-- C7: `GetProxy` is total and never errs: it returns none when no
snapshot has ever been installed and when the name is absent from the
current snapshot, and the name's forwarding target when present. -/
theorem C7_getproxy_none_or_target (r : ReverseProxy) (name : String) :
    (r.routes = none → r.GetProxy name = none) ∧
    (∀ tbl, r.routes = some tbl → name ∉ mapKeys tbl →
      r.GetProxy name = none) ∧
    (∀ tbl p, r.routes = some tbl → (mapKeys tbl).Nodup →
      (name, p) ∈ tbl → r.GetProxy name = some p) := by
  refine ⟨?_, ?_, ?_⟩
  · intro h
    simp [ReverseProxy.GetProxy, h]
  · intro tbl h habs
    simp only [ReverseProxy.GetProxy, h]
    exact mapLookup_eq_none_of_not_mem tbl name habs
  · intro tbl p h hd hmem
    simp only [ReverseProxy.GetProxy, h]
    exact mapLookup_of_mem_nodup tbl name p hd hmem

/-- Witness for C7: a populated table serves a present name and returns
none for a missing one. -/
theorem C7_getproxy_none_or_target_witness :
    (({ routes := some [("x", { scheme := "http", host := "h:1" })] } :
        ReverseProxy).routes =
      some [("x", { scheme := "http", host := "h:1" })]) ∧
    ("missing" : String) ∉
      mapKeys [("x", ({ scheme := "http", host := "h:1" } : Proxy))] ∧
    ReverseProxy.GetProxy
        { routes := some [("x", { scheme := "http", host := "h:1" })] }
        "missing" = none ∧
    (mapKeys [("x", ({ scheme := "http", host := "h:1" } : Proxy))]).Nodup ∧
    ReverseProxy.GetProxy
        { routes := some [("x", { scheme := "http", host := "h:1" })] }
        "x" = some { scheme := "http", host := "h:1" } :=
  ⟨rfl, by decide,
   (C7_getproxy_none_or_target
      { routes := some [("x", { scheme := "http", host := "h:1" })] }
      "missing").2.1 [("x", { scheme := "http", host := "h:1" })] rfl
     (by decide),
   by decide,
   (C7_getproxy_none_or_target
      { routes := some [("x", { scheme := "http", host := "h:1" })] }
      "x").2.2 [("x", { scheme := "http", host := "h:1" })]
     { scheme := "http", host := "h:1" } rfl (by decide) (by decide)⟩

/-- C8 counterexample: after a MalformedSource failure the remembered
timestamp is unchanged, so a second Reload of the very same unchanged
bad source re-stats and re-parses it, returning MalformedSource again
instead of the "nothing changed" result; and a content change under the
same timestamp is consumed, showing the content is reprocessed without
any edit of the modification time. -/
theorem C8_counterexample :
    ConfigLoader.Reload { last := 0 }
        { modTime := some 1, content := FileContent.malformed } =
      ((none, some GoError.jsonErr), { last := 0 }) ∧
    (ConfigLoader.Reload { last := 0 }
        { modTime := some 1, content := FileContent.malformed }).2.Reload
        { modTime := some 1, content := FileContent.malformed } =
      ((none, some GoError.jsonErr), { last := 0 }) ∧
    ((ConfigLoader.Reload { last := 0 }
        { modTime := some 1, content := FileContent.malformed }).2.Reload
        { modTime := some 1,
          content := FileContent.records [("b", "h2:2")] }).1.1 =
      some [("b", "h2:2")] :=
  ⟨rfl, rfl, rfl⟩

/-- C8 (amended): after a Reload fails with MalformedSource the
remembered timestamp is unchanged, so while the source keeps the same
modification time (still differing from the remembered one) and the
same bad content, every subsequent Reload reprocesses it — parsing
fails with MalformedSource again and the state is unchanged — rather
than skipping it as "nothing changed"; only the unchanged-timestamp
case suppresses reprocessing. -/
theorem C8_amended_malformed_is_reprocessed_each_cycle
    (l : ConfigLoader) (f : SourceFile) (t : Nat)
    (hm : f.modTime = some t) (ht : t ≠ l.last)
    (hc : f.content = FileContent.malformed) :
    l.Reload f = ((none, some GoError.jsonErr), l) ∧
    (l.Reload f).2.Reload f = ((none, some GoError.jsonErr), l) := by
  have hL : ConfigLoader.Load f = Except.error GoError.jsonErr := by
    simp [ConfigLoader.Load, hc]
  have h1 : l.Reload f = ((none, some GoError.jsonErr), l) := by
    simp [ConfigLoader.Reload, hm, ht, hL]
  refine ⟨h1, ?_⟩
  rw [h1]
  exact h1

/-- Witness for the amended C8 at a concrete loader and bad source. -/
theorem C8_amended_malformed_is_reprocessed_each_cycle_witness :
    ConfigLoader.Reload { last := 0 }
        { modTime := some 1, content := FileContent.malformed } =
      ((none, some GoError.jsonErr), { last := 0 }) ∧
    (ConfigLoader.Reload { last := 0 }
        { modTime := some 1, content := FileContent.malformed }).2.Reload
        { modTime := some 1, content := FileContent.malformed } =
      ((none, some GoError.jsonErr), { last := 0 }) :=
  C8_amended_malformed_is_reprocessed_each_cycle { last := 0 }
    { modTime := some 1, content := FileContent.malformed } 1 rfl
    (by decide) rfl

/-- C9: in every reachable state of the route table — no snapshot
installed, or after any sequence of Update calls — lookup of the empty
name returns none: the empty string is never a key of the installed
snapshot. -/
theorem C9_empty_name_never_routed (r : ReverseProxy)
    (h : Reachable r) : r.GetProxy "" = none := by
  induction h with
  | init => rfl
  | step r' m _ _ =>
    show mapLookup (m.foldl updateStep []) "" = none
    apply mapLookup_eq_none_of_not_mem
    exact empty_not_mem_keys_foldl m [] (by simp [mapKeys])

/-- Witness for C9 at a reachable state that was fed an empty-name
record. -/
theorem C9_empty_name_never_routed_witness :
    Reachable (ReverseProxy.Update { routes := none }
      [("", "h1:1"), ("a", "h:1")]) ∧
    (ReverseProxy.Update { routes := none }
      [("", "h1:1"), ("a", "h:1")]).GetProxy "" = none :=
  ⟨Reachable.step _ _ Reachable.init,
   C9_empty_name_never_routed _ (Reachable.step _ _ Reachable.init)⟩

/-- C10: Update with an empty mapping, or one whose entries all have an
empty name or an empty address, installs an empty snapshot: afterwards
every lookup returns none and the name listing is empty — the previous
routes are erased, not preserved. -/
theorem C10_all_invalid_update_installs_empty
    (r : ReverseProxy) (m : List (String × String))
    (h : ∀ e ∈ m, e.1 = "" ∨ e.2 = "") :
    (∀ name, (r.Update m).GetProxy name = none) ∧
    (r.Update m).Names = [] := by
  have htbl : m.foldl updateStep [] = [] :=
    foldl_updateStep_all_invalid m [] h
  constructor
  · intro name
    show mapLookup (m.foldl updateStep []) name = none
    rw [htbl]
    rfl
  · show mapKeys (m.foldl updateStep []) = []
    rw [htbl]
    rfl

/-- Witness for C10: an all-invalid update erases a previously
installed route. -/
theorem C10_all_invalid_update_installs_empty_witness :
    (ReverseProxy.Update
        { routes := some [("x", { scheme := "http", host := "old" })] }
        [("", "h1:1"), ("a", "")]).GetProxy "x" = none ∧
    (ReverseProxy.Update
        { routes := some [("x", { scheme := "http", host := "old" })] }
        [("", "h1:1"), ("a", "")]).Names = [] :=
  ⟨(C10_all_invalid_update_installs_empty
      { routes := some [("x", { scheme := "http", host := "old" })] }
      [("", "h1:1"), ("a", "")] (by decide)).1 "x",
   (C10_all_invalid_update_installs_empty
      { routes := some [("x", { scheme := "http", host := "old" })] }
      [("", "h1:1"), ("a", "")] (by decide)).2⟩
